import Mathlib

/-!
Verification of the ifc enlistment path-rewriting tool: a shallow embedding
of src/file.cxx (the content-hash integrity protocol of InputIfc) and of
src/ifc4enlistment/main.cxx (argument handling, the source-path rewrite, the
per-file processing loop and top-level error translation), with theorems
about the digest invariant, the rewrite transform and the driver behaviour.

Bytes are modelled as natural numbers and buffers as lists of bytes.  The
SHA-256 implementation (hash_bytes) and the container string table live in
library headers outside the two translation units, so they enter the
development as explicit function parameters, constrained only by what the
sources and the specification guarantee about them (a digest is 32 bytes;
set_string overwrites storage in place without changing the buffer length).
-/

namespace Ifc

/-- Size in bytes of the interface signature: the static_assert in file.cxx
records 4 bytes for the Signature. -/
def sizeof_InterfaceSignature : Nat := 4

/-- Size in bytes of a SHA-256 digest: the static_assert in file.cxx records
8 * 4 bytes for the SHA2 value. -/
def sizeof_SHA256Hash : Nat := 32

/-- file.cxx: hash_start = sizeof(InterfaceSignature); the stored digest
begins right after the signature. -/
def hash_start : Nat := sizeof_InterfaceSignature

/-- file.cxx: contents_start = hash_start + sizeof(SHA256Hash); the hashed
body begins right after the stored digest (static_assert: 36). -/
def contents_start : Nat := hash_start + sizeof_SHA256Hash

/-- In-place byte-range write, the effect of memcpy(buf + pos, src, src.len)
for an in-bounds destination range. -/
def overwrite (buf : List Nat) (pos : Nat) (src : List Nat) : List Nat :=
  buf.take pos ++ src ++ buf.drop (pos + src.length)

/-- file.cxx InputIfc::generate_content_hash: hash every byte from
contents_start to end of file.  The hash function itself (hash_bytes,
SHA-256) is external to the two source files and is a parameter here. -/
def generate_content_hash (hash : List Nat → List Nat) (buf : List Nat) : List Nat :=
  hash (buf.drop contents_start)

/-- file.cxx InputIfc::validate_content_integrity: recompute the hash of the
body and compare it byte-for-byte with the 32 digest bytes stored at
hash_start; true means no IntegrityCheckFailed is thrown. -/
def validate_content_integrity (hash : List Nat → List Nat) (buf : List Nat) : Bool :=
  generate_content_hash hash buf == (buf.drop hash_start).take sizeof_SHA256Hash

/-- file.cxx InputIfc::reset_content_hash: recompute the body hash and
memcpy it over the stored digest at hash_start. -/
def reset_content_hash (hash : List Nat → List Nat) (buf : List Nat) : List Nat :=
  overwrite buf hash_start (generate_content_hash hash buf)

/-- A hash function producing 32-byte digests, usable to instantiate the
hash parameter in concrete witnesses. -/
def demoHash (b : List Nat) : List Nat :=
  List.replicate sizeof_SHA256Hash (b.length % 256)

theorem demoHash_length (b : List Nat) : (demoHash b).length = sizeof_SHA256Hash := by
  simp [demoHash]

/-- Unfolding of reset_content_hash into the three regions of the buffer,
assuming the digest produced by the hash function is 32 bytes wide. -/
theorem reset_content_hash_eq (hash : List Nat → List Nat) (buf : List Nat)
    (hLen : ∀ b, (hash b).length = sizeof_SHA256Hash) :
    reset_content_hash hash buf
      = buf.take hash_start ++ hash (buf.drop contents_start) ++ buf.drop contents_start := by
  simp only [reset_content_hash, overwrite, generate_content_hash, hLen]
  rfl

theorem take_hash_start_length (buf : List Nat) (hbuf : contents_start ≤ buf.length) :
    (buf.take hash_start).length = hash_start := by
  simp only [List.length_take]
  have : hash_start ≤ contents_start := by simp [hash_start, contents_start]
  omega

/-- The signature bytes are untouched by reset_content_hash. -/
theorem reset_content_hash_take (hash : List Nat → List Nat) (buf : List Nat)
    (hLen : ∀ b, (hash b).length = sizeof_SHA256Hash)
    (hbuf : contents_start ≤ buf.length) :
    (reset_content_hash hash buf).take hash_start = buf.take hash_start := by
  rw [reset_content_hash_eq hash buf hLen, List.append_assoc,
    List.take_left' (take_hash_start_length buf hbuf)]

/-- The body bytes are untouched by reset_content_hash. -/
theorem reset_content_hash_drop (hash : List Nat → List Nat) (buf : List Nat)
    (hLen : ∀ b, (hash b).length = sizeof_SHA256Hash)
    (hbuf : contents_start ≤ buf.length) :
    (reset_content_hash hash buf).drop contents_start = buf.drop contents_start := by
  rw [reset_content_hash_eq hash buf hLen]
  apply List.drop_left'
  rw [List.length_append, take_hash_start_length buf hbuf, hLen]
  rfl

/-- After reset_content_hash, the stored digest bytes are exactly the hash
of the (unchanged) body. -/
theorem reset_content_hash_digest (hash : List Nat → List Nat) (buf : List Nat)
    (hLen : ∀ b, (hash b).length = sizeof_SHA256Hash)
    (hbuf : contents_start ≤ buf.length) :
    ((reset_content_hash hash buf).drop hash_start).take sizeof_SHA256Hash
      = hash (buf.drop contents_start) := by
  rw [reset_content_hash_eq hash buf hLen, List.append_assoc,
    List.drop_left' (take_hash_start_length buf hbuf),
    List.take_left' (hLen (buf.drop contents_start))]

/-- reset_content_hash preserves the buffer length. -/
theorem reset_content_hash_length (hash : List Nat → List Nat) (buf : List Nat)
    (hLen : ∀ b, (hash b).length = sizeof_SHA256Hash)
    (hbuf : contents_start ≤ buf.length) :
    (reset_content_hash hash buf).length = buf.length := by
  rw [reset_content_hash_eq hash buf hLen]
  simp only [List.length_append, List.length_take, List.length_drop, hLen]
  have : hash_start + sizeof_SHA256Hash = contents_start := rfl
  omega

/-- Validation always succeeds right after reset_content_hash. -/
theorem validate_after_reset (hash : List Nat → List Nat) (buf : List Nat)
    (hLen : ∀ b, (hash b).length = sizeof_SHA256Hash)
    (hbuf : contents_start ≤ buf.length) :
    validate_content_integrity hash (reset_content_hash hash buf) = true := by
  simp only [validate_content_integrity, generate_content_hash,
    reset_content_hash_drop hash buf hLen hbuf,
    reset_content_hash_digest hash buf hLen hbuf, beq_self_eq_true]

/-- Claim C3: reset_content_hash is idempotent given a fixed body — calling
it twice in a row with no change to the body bytes writes the same digest
both times (the digest lives at offsets [4, 36), outside the hashed range
[36, end)), and validate_content_integrity succeeds after each call. -/
theorem claim_c3_reset_idempotent (hash : List Nat → List Nat) (buf : List Nat)
    (hLen : ∀ b, (hash b).length = sizeof_SHA256Hash)
    (hbuf : contents_start ≤ buf.length) :
    reset_content_hash hash (reset_content_hash hash buf) = reset_content_hash hash buf
    ∧ validate_content_integrity hash (reset_content_hash hash buf) = true
    ∧ validate_content_integrity hash
        (reset_content_hash hash (reset_content_hash hash buf)) = true := by
  have hlen2 : contents_start ≤ (reset_content_hash hash buf).length := by
    rw [reset_content_hash_length hash buf hLen hbuf]; exact hbuf
  have hidem :
      reset_content_hash hash (reset_content_hash hash buf) = reset_content_hash hash buf := by
    rw [reset_content_hash_eq hash (reset_content_hash hash buf) hLen,
      reset_content_hash_take hash buf hLen hbuf,
      reset_content_hash_drop hash buf hLen hbuf,
      reset_content_hash_eq hash buf hLen]
  refine ⟨hidem, validate_after_reset hash buf hLen hbuf, ?_⟩
  rw [hidem]
  exact validate_after_reset hash buf hLen hbuf

/-- Witness for claim C3 at a concrete hash function and buffer. -/
theorem claim_c3_reset_idempotent_witness :
    (∀ b : List Nat, (demoHash b).length = sizeof_SHA256Hash)
    ∧ contents_start ≤ (List.replicate 40 0).length
    ∧ (reset_content_hash demoHash (reset_content_hash demoHash (List.replicate 40 0))
        = reset_content_hash demoHash (List.replicate 40 0)
      ∧ validate_content_integrity demoHash
          (reset_content_hash demoHash (List.replicate 40 0)) = true
      ∧ validate_content_integrity demoHash
          (reset_content_hash demoHash
            (reset_content_hash demoHash (List.replicate 40 0))) = true) :=
  ⟨demoHash_length, by decide,
    claim_c3_reset_idempotent demoHash (List.replicate 40 0) demoHash_length
      (by decide)⟩

/-- Claim C4: the digest covers exactly the body — contents_start is
sizeof(signature) + sizeof(digest) = 36, generate_content_hash hashes
precisely the bytes from offset 36 to end-of-file (no more, no fewer), and
validate_content_integrity compares that hash byte-for-byte against the 32
digest bytes stored at offset sizeof(signature). -/
theorem claim_c4_digest_covers_body (hash : List Nat → List Nat) (buf : List Nat) :
    contents_start = sizeof_InterfaceSignature + sizeof_SHA256Hash
    ∧ contents_start = 36
    ∧ generate_content_hash hash buf = hash (buf.drop contents_start)
    ∧ (buf.drop contents_start).length = buf.length - contents_start
    ∧ (∀ i, (buf.drop contents_start)[i]? = buf[contents_start + i]?)
    ∧ (validate_content_integrity hash buf = true
        ↔ generate_content_hash hash buf = (buf.drop hash_start).take sizeof_SHA256Hash)
    ∧ (∀ i, ((buf.drop hash_start).take sizeof_SHA256Hash)[i]?
        = if i < sizeof_SHA256Hash then buf[hash_start + i]? else none) := by
  refine ⟨rfl, rfl, rfl, List.length_drop contents_start buf,
    fun i => List.getElem?_drop buf contents_start i, ?_, fun i => ?_⟩
  · simp [validate_content_integrity]
  · by_cases h : i < sizeof_SHA256Hash
    · rw [List.getElem?_take_of_lt h, List.getElem?_drop, if_pos h]
    · rw [if_neg h]
      apply List.getElem?_eq_none
      have := List.length_take sizeof_SHA256Hash (buf.drop hash_start)
      omega

/-- Claim C9: reset_content_hash modifies only the 32 digest bytes at
offsets [4, 36) — the signature bytes [0, 4) and the body bytes [36, end)
are unchanged, and the buffer length is unchanged. -/
theorem claim_c9_reset_frame (hash : List Nat → List Nat) (buf : List Nat)
    (hLen : ∀ b, (hash b).length = sizeof_SHA256Hash)
    (hbuf : contents_start ≤ buf.length) :
    (reset_content_hash hash buf).take hash_start = buf.take hash_start
    ∧ (reset_content_hash hash buf).drop contents_start = buf.drop contents_start
    ∧ (reset_content_hash hash buf).length = buf.length
    ∧ (∀ i, i < hash_start → (reset_content_hash hash buf)[i]? = buf[i]?)
    ∧ (∀ i, contents_start ≤ i →
        (reset_content_hash hash buf)[i]? = buf[i]?) := by
  have htake := reset_content_hash_take hash buf hLen hbuf
  have hdrop := reset_content_hash_drop hash buf hLen hbuf
  refine ⟨htake, hdrop, reset_content_hash_length hash buf hLen hbuf,
    fun i hi => ?_, fun i hi => ?_⟩
  · have h1 := List.getElem?_take_of_lt (l := reset_content_hash hash buf)
      (n := hash_start) (m := i) hi
    have h2 := List.getElem?_take_of_lt (l := buf) (n := hash_start) (m := i) hi
    rw [← h1, ← h2, htake]
  · have h1 := List.getElem?_drop (reset_content_hash hash buf) contents_start
      (i - contents_start)
    have h2 := List.getElem?_drop buf contents_start (i - contents_start)
    have hadd : contents_start + (i - contents_start) = i := by omega
    rw [hadd] at h1 h2
    rw [← h1, ← h2, hdrop]

/-- Witness for claim C9 at a concrete hash function and buffer. -/
theorem claim_c9_reset_frame_witness :
    (∀ b : List Nat, (demoHash b).length = sizeof_SHA256Hash)
    ∧ contents_start ≤ (List.replicate 40 0).length
    ∧ ((reset_content_hash demoHash (List.replicate 40 0)).take hash_start
          = (List.replicate 40 (0 : Nat)).take hash_start
      ∧ (reset_content_hash demoHash (List.replicate 40 0)).drop contents_start
          = (List.replicate 40 (0 : Nat)).drop contents_start
      ∧ (reset_content_hash demoHash (List.replicate 40 0)).length
          = (List.replicate 40 (0 : Nat)).length
      ∧ (∀ i, i < hash_start →
          (reset_content_hash demoHash (List.replicate 40 0))[i]?
            = (List.replicate 40 (0 : Nat))[i]?)
      ∧ (∀ i, contents_start ≤ i →
          (reset_content_hash demoHash (List.replicate 40 0))[i]?
            = (List.replicate 40 (0 : Nat))[i]?)) :=
  ⟨demoHash_length, by decide,
    claim_c9_reset_frame demoHash (List.replicate 40 0) demoHash_length
      (by decide)⟩

/-- Modulus of the C++ size_t type on the 64-bit target: unsigned
subtraction in main.cxx wraps modulo this value. -/
def SIZE_T_MOD : Nat := 2 ^ 64

/-- main.cxx: constexpr std::string_view srcrootPrefix. -/
def srcrootPrefix : List Char := "SRC_PARENTsrc\\".toList

/-- main.cxx: constexpr std::string_view publicPath. -/
def publicPath : List Char := "\\public\\".toList

/-- main.cxx: constexpr std::string_view icachePrefix. -/
def icachePrefix : List Char := "ICACHECUR\\".toList

/-- main.cxx: constexpr std::string_view icacheSuffix. -/
def icacheSuffix : List Char := "\\src".toList

/-- main.cxx: constexpr std::string_view sourceFilePartitionName. -/
def sourceFilePartitionName : List Char := "name.source-file".toList

/-- The single-backslash pattern searched for inside the project name
(main.cxx line 182). -/
def backslashStr : List Char := "\\".toList

/-- std::string::find for a pattern string: index of the first occurrence,
none when absent (the C++ npos case). -/
def findSubstr (pat : List Char) : List Char → Option Nat
  | [] => if pat.isPrefixOf [] then some 0 else none
  | c :: t =>
    if pat.isPrefixOf (c :: t) then some 0
    else (findSubstr pat t).map (fun i => i + 1)

/-- std::string::substr(pos, count) for pos ≤ size: the chunk of count
characters from pos, clamped to the end of the string. -/
def cppSubstr (s : List Char) (pos count : Nat) : List Char :=
  (s.drop pos).take count

/-- std::string::replace(0, repl.size(), repl): overwrite the leading span
of length repl.size() with repl (clamped at end of string). -/
def cppReplacePrefix (s repl : List Char) : List Char :=
  repl ++ s.drop repl.length

/-- Wrapping size_t subtraction a - b on the 64-bit target. -/
def sizeTSub (a b : Nat) : Nat :=
  (a + SIZE_T_MOD - b) % SIZE_T_MOD

/-- main.cxx lines 182-184: the first backslash of the extracted project
name, if any, becomes an underscore; later separators are untouched. -/
def substFirstSep (pn0 : List Char) : List Char :=
  match findSubstr backslashStr pn0 with
  | some pathSep => pn0.set pathSep '_'
  | none => pn0

/-- The project-name extraction of main.cxx lines 180-184: substr from the
end of the root prefix up to the marker index (the count is a wrapping
size_t difference), then the first backslash, if any, becomes an
underscore. -/
def projectNameOf (s : List Char) (idx : Nat) : List Char :=
  substFirstSep (cppSubstr s srcrootPrefix.length (sizeTSub idx srcrootPrefix.length))

/-- The accepted-case rewrite of main.cxx lines 185-188: build the
replacement icachePrefix ++ project ++ icacheSuffix and overwrite the
leading span of the path with it. -/
def rewritten (s : List Char) (idx : Nat) : List Char :=
  cppReplacePrefix s ( icachePrefix ++ projectNameOf s idx ++ icacheSuffix)

/-- The path-rewrite rule of main.cxx lines 175-189: paths not starting
with srcrootPrefix or without the publicPath marker are left alone (none);
accepted paths are rewritten in place. -/
def rewrite_source_path (s : List Char) : Option (List Char) :=
  if srcrootPrefix.isPrefixOf s then
    match findSubstr publicPath s with
    | some idx => some (rewritten s idx)
    | none => none
  else none

theorem srcrootPrefix_length : srcrootPrefix.length = 14 := by decide

theorem icachePrefix_length : icachePrefix.length = 10 := by decide

theorem icacheSuffix_length : icacheSuffix.length = 4 := by decide

/-- Separator substitution does not change the length of the project
name. -/
theorem substFirstSep_length (pn0 : List Char) :
    (substFirstSep pn0).length = pn0.length := by
  unfold substFirstSep
  cases findSubstr backslashStr pn0 with
  | none => rfl
  | some pathSep => simp

/-- The extracted project name never reaches past the end of the string:
its length is at most the length of the remainder after the root prefix,
whatever the (possibly wrapped) substr count was. -/
theorem projectNameOf_length_le (s : List Char) (idx : Nat) :
    (projectNameOf s idx).length ≤ s.length - srcrootPrefix.length := by
  rw [projectNameOf, substFirstSep_length]
  simp only [cppSubstr, List.length_take, List.length_drop]
  omega

/-- Length preservation of the accepted-case rewrite: the replacement is
never longer than the path, so the fixed-width overwrite keeps the length. -/
theorem rewritten_length (s : List Char) (idx : Nat)
    (hp : srcrootPrefix.length ≤ s.length) :
    (rewritten s idx).length = s.length := by
  have hpn := projectNameOf_length_le s idx
  unfold rewritten cppReplacePrefix
  simp only [List.length_append, List.length_drop, icachePrefix_length,
    icacheSuffix_length]
  rw [ srcrootPrefix_length] at hpn hp
  omega

/-- Claim C2: for every input path accepted by the rewrite rule (it starts
with srcrootPrefix and contains the publicPath marker), the rewritten
string has exactly the same length as the input — the replacement
overwrites a leading span of exactly its own length; nothing is inserted or
deleted. -/
theorem claim_c2_rewrite_length_stable (s out : List Char)
    (h : rewrite_source_path s = some out) :
    out.length = s.length
    ∧ ∃ repl, out = repl ++ s.drop repl.length ∧ repl.length ≤ s.length := by
  unfold rewrite_source_path at h
  by_cases hp : srcrootPrefix.isPrefixOf s
  · rw [if_pos hp] at h
    cases hfind : findSubstr publicPath s with
    | none => rw [hfind] at h; exact absurd h (by simp)
    | some idx =>
      rw [hfind] at h
      have hple : srcrootPrefix.length ≤ s.length :=
        (List.isPrefixOf_iff_prefix.mp hp).length_le
      have hout : out = rewritten s idx := by
        simpa using h.symm
      subst hout
      refine ⟨rewritten_length s idx hple, ?_⟩
      refine ⟨ icachePrefix ++ projectNameOf s idx ++ icacheSuffix, rfl, ?_⟩
      have hpn := projectNameOf_length_le s idx
      simp only [List.length_append, icachePrefix_length, icacheSuffix_length]
      rw [ srcrootPrefix_length] at hpn hple
      omega
  · rw [if_neg hp] at h
    exact absurd h (by simp)

/-- Witness for claim C2 at the concrete path of the specification
scenario. -/
theorem claim_c2_rewrite_length_stable_witness :
    rewrite_source_path "SRC_PARENTsrc\\foo\\public\\bar\\baz.h".toList
      = some "ICACHECUR\\foo\\src\\public\\bar\\baz.h".toList
    ∧ ("ICACHECUR\\foo\\src\\public\\bar\\baz.h".toList).length
        = ("SRC_PARENTsrc\\foo\\public\\bar\\baz.h".toList).length
    ∧ ∃ repl, "ICACHECUR\\foo\\src\\public\\bar\\baz.h".toList
          = repl ++ ("SRC_PARENTsrc\\foo\\public\\bar\\baz.h".toList).drop repl.length
        ∧ repl.length ≤ ("SRC_PARENTsrc\\foo\\public\\bar\\baz.h".toList).length :=
  ⟨by decide,
    claim_c2_rewrite_length_stable
      "SRC_PARENTsrc\\foo\\public\\bar\\baz.h".toList
      "ICACHECUR\\foo\\src\\public\\bar\\baz.h".toList (by decide)⟩

/-- Claim C6: on the path SRC_PARENTsrc&#92;foo&#92;public&#92;bar&#92;baz.h the
marker is found at index 17, the project segment is foo, the replacement is
ICACHECUR&#92;foo&#92;src of length 17, exactly the first 17 characters are
overwritten, the remainder &#92;public&#92;bar&#92;baz.h is unchanged, and the
result is ICACHECUR&#92;foo&#92;src&#92;public&#92;bar&#92;baz.h. -/
theorem claim_c6_scenario_rewrite :
    findSubstr publicPath "SRC_PARENTsrc\\foo\\public\\bar\\baz.h".toList = some 17
    ∧ projectNameOf "SRC_PARENTsrc\\foo\\public\\bar\\baz.h".toList 17 = "foo".toList
    ∧ icachePrefix ++ "foo".toList ++ icacheSuffix = "ICACHECUR\\foo\\src".toList
    ∧ ("ICACHECUR\\foo\\src".toList).length = 17
    ∧ ("SRC_PARENTsrc\\foo\\public\\bar\\baz.h".toList).drop 17
        = "\\public\\bar\\baz.h".toList
    ∧ rewrite_source_path "SRC_PARENTsrc\\foo\\public\\bar\\baz.h".toList
        = some ("ICACHECUR\\foo\\src".toList ++ "\\public\\bar\\baz.h".toList)
    ∧ "ICACHECUR\\foo\\src".toList ++ "\\public\\bar\\baz.h".toList
        = "ICACHECUR\\foo\\src\\public\\bar\\baz.h".toList := by
  refine ⟨by decide, by decide, by decide, by decide, by decide, by decide, by decide⟩

/-- When the marker sits at index 13 (sharing the root prefix's trailing
backslash), the size_t count idx - len(prefix) wraps to 2^64 - 1. -/
theorem sizeTSub_wrap : sizeTSub 13 srcrootPrefix.length = SIZE_T_MOD - 1 := by
  rw [ srcrootPrefix_length]
  unfold sizeTSub
  have hM : 14 ≤ SIZE_T_MOD := by norm_num [SIZE_T_MOD]
  have h1 : 13 + SIZE_T_MOD - 14 = SIZE_T_MOD - 1 := by omega
  rw [h1]
  exact Nat.mod_eq_of_lt (by omega)

/-- Claim C8: for every path starting with srcrootPrefix whose first
occurrence of the publicPath marker begins at index 13, the size_t
subtraction idx - len(prefix) wraps around to 2^64 - 1, exceeding the
number of characters left after the prefix (so substr clamps the count),
the substr precondition pos ≤ size still holds, and the rewrite still
completes with a written string of the original length. -/
theorem claim_c8_wrapping_rewrite_safe (s : List Char)
    (hp : srcrootPrefix.isPrefixOf s = true)
    (hfind : findSubstr publicPath s = some 13)
    (hlen : s.length < SIZE_T_MOD) :
    sizeTSub 13 srcrootPrefix.length = SIZE_T_MOD - 1
    ∧ s.length - srcrootPrefix.length < sizeTSub 13 srcrootPrefix.length
    ∧ srcrootPrefix.length ≤ s.length
    ∧ rewrite_source_path s = some (rewritten s 13)
    ∧ (rewritten s 13).length = s.length := by
  have hM : 15 ≤ SIZE_T_MOD := by norm_num [SIZE_T_MOD]
  have hple : srcrootPrefix.length ≤ s.length :=
    (List.isPrefixOf_iff_prefix.mp hp).length_le
  refine ⟨sizeTSub_wrap, ?_, hple, ?_, rewritten_length s 13 hple⟩
  · rw [sizeTSub_wrap, srcrootPrefix_length]
    omega
  · simp only [rewrite_source_path, hp, if_true, hfind]

/-- Witness for claim C8 at the concrete path
SRC_PARENTsrc&#92;public&#92;x.h, whose marker occurrence starts at index 13. -/
theorem claim_c8_wrapping_rewrite_safe_witness :
    srcrootPrefix.isPrefixOf "SRC_PARENTsrc\\public\\x.h".toList = true
    ∧ findSubstr publicPath "SRC_PARENTsrc\\public\\x.h".toList = some 13
    ∧ ("SRC_PARENTsrc\\public\\x.h".toList).length < SIZE_T_MOD
    ∧ (sizeTSub 13 srcrootPrefix.length = SIZE_T_MOD - 1
      ∧ ("SRC_PARENTsrc\\public\\x.h".toList).length - srcrootPrefix.length
          < sizeTSub 13 srcrootPrefix.length
      ∧ srcrootPrefix.length ≤ ("SRC_PARENTsrc\\public\\x.h".toList).length
      ∧ rewrite_source_path "SRC_PARENTsrc\\public\\x.h".toList
          = some (rewritten "SRC_PARENTsrc\\public\\x.h".toList 13)
      ∧ (rewritten "SRC_PARENTsrc\\public\\x.h".toList 13).length
          = ("SRC_PARENTsrc\\public\\x.h".toList).length) :=
  ⟨by decide, by decide, by decide,
    claim_c8_wrapping_rewrite_safe "SRC_PARENTsrc\\public\\x.h".toList
      (by decide) (by decide) (by decide)⟩

/-- Modelled from the spec: one partition-table row — a name reference into
the string-interning mechanism, a payload byte offset and a record count.
The container decoding library that produces the table is outside the two
source files. -/
structure PartitionEntry where
  name : Nat
  offset : Nat
  cardinality : Nat
deriving DecidableEq

/-- Mutation events of a processing run, recorded alongside the buffer for
specification purposes: a set_string write or a digest reset. -/
inductive MutEvent
  | setString (ref : Nat)
  | resetHash
deriving DecidableEq

/-- The record-mutation step of main.cxx lines 172-192: a record with a
non-null name reference resolves its path via the string table; if the
rewrite rule accepts the path, set overwrites the stored string in place;
otherwise nothing changes.  getStr and setStr are the string-table
accessors of the container library (modelled from the spec: set_string
overwrites the referenced storage in place). -/
def mutate_record (getStr : List Nat → Nat → List Char)
    (setStr : List Nat → Nat → List Char → List Nat)
    (st : List Nat × List MutEvent) (nameref : Nat) : List Nat × List MutEvent :=
  if nameref ≠ 0 then
    match rewrite_source_path (getStr st.1 nameref) with
    | some out => (setStr st.1 nameref out, st.2 ++ [MutEvent.setString nameref])
    | none => st
  else st

/-- One full iteration of the record loop of main.cxx lines 170-194: the
conditional mutation, then unconditionally reset_content_hash. -/
def process_record (hash : List Nat → List Nat)
    (getStr : List Nat → Nat → List Char)
    (setStr : List Nat → Nat → List Char → List Nat)
    (st : List Nat × List MutEvent) (nameref : Nat) : List Nat × List MutEvent :=
  (reset_content_hash hash (mutate_record getStr setStr st nameref).1,
    (mutate_record getStr setStr st nameref).2 ++ [MutEvent.resetHash])

/-- main.cxx process_ifc after validation (lines 159-195): look up the
partition named name.source-file in the partition table; if it is absent
there is nothing to do; otherwise decode the record array at its offset and
fold the record loop over it.  getName resolves a table entry's interned
name against the buffer and readArray decodes the record name references;
both belong to the container library outside the two source files (modelled
from the spec). -/
def process_ifc (hash : List Nat → List Nat)
    (getName : List Nat → Nat → List Char)
    (readArray : Nat → Nat → List Nat)
    (getStr : List Nat → Nat → List Char)
    (setStr : List Nat → Nat → List Char → List Nat)
    (buf : List Nat) (tbl : List PartitionEntry) : List Nat × List MutEvent :=
  match tbl.find? (fun e => getName buf e.name == sourceFilePartitionName) with
  | none => (buf, [])
  | some entry =>
    (readArray entry.offset entry.cardinality).foldl
      (process_record hash getStr setStr) (buf, [])

/-- Shape of one record step: the buffer either is untouched or got one
in-place set, and exactly one resetHash event is appended. -/
theorem mutate_record_shape (getStr : List Nat → Nat → List Char)
    (setStr : List Nat → Nat → List Char → List Nat)
    (st : List Nat × List MutEvent) (r : Nat) :
    (mutate_record getStr setStr st r = st
      ∨ ∃ out, mutate_record getStr setStr st r
          = (setStr st.1 r out, st.2 ++ [MutEvent.setString r])) := by
  unfold mutate_record
  by_cases hr : r ≠ 0
  · rw [if_pos hr]
    cases hrw : rewrite_source_path (getStr st.1 r) with
    | none => exact Or.inl rfl
    | some out => exact Or.inr ⟨out, rfl⟩
  · rw [if_neg hr]
    exact Or.inl rfl

theorem mutate_record_length (getStr : List Nat → Nat → List Char)
    (setStr : List Nat → Nat → List Char → List Nat)
    (st : List Nat × List MutEvent) (r : Nat)
    (hSet : ∀ b ref v, (setStr b ref v).length = b.length) :
    (mutate_record getStr setStr st r).1.length = st.1.length := by
  rcases mutate_record_shape getStr setStr st r with h | ⟨out, h⟩
  · rw [h]
  · rw [h]; exact hSet st.1 r out

theorem mutate_record_count (getStr : List Nat → Nat → List Char)
    (setStr : List Nat → Nat → List Char → List Nat)
    (st : List Nat × List MutEvent) (r : Nat) :
    ((mutate_record getStr setStr st r).2).count MutEvent.resetHash
      = st.2.count MutEvent.resetHash := by
  rcases mutate_record_shape getStr setStr st r with h | ⟨out, h⟩
  · rw [h]
  · rw [h]; simp [List.count_append]

theorem process_record_length (hash : List Nat → List Nat)
    (getStr : List Nat → Nat → List Char)
    (setStr : List Nat → Nat → List Char → List Nat)
    (st : List Nat × List MutEvent) (r : Nat)
    (hLen : ∀ b, (hash b).length = sizeof_SHA256Hash)
    (hSet : ∀ b ref v, (setStr b ref v).length = b.length)
    (hbuf : contents_start ≤ st.1.length) :
    (process_record hash getStr setStr st r).1.length = st.1.length := by
  unfold process_record
  rw [reset_content_hash_length hash _ hLen
    (by rw [mutate_record_length getStr setStr st r hSet]; exact hbuf),
    mutate_record_length getStr setStr st r hSet]

/-- The record loop ends every iteration with reset_content_hash, so a
nonempty loop leaves the buffer in the image of reset_content_hash, with
the buffer length unchanged throughout. -/
theorem foldl_process_reset (hash : List Nat → List Nat)
    (getStr : List Nat → Nat → List Char)
    (setStr : List Nat → Nat → List Char → List Nat)
    (hLen : ∀ b, (hash b).length = sizeof_SHA256Hash)
    (hSet : ∀ b ref v, (setStr b ref v).length = b.length) :
    ∀ (recs : List Nat) (st : List Nat × List MutEvent), recs ≠ [] →
      contents_start ≤ st.1.length →
      ∃ x, contents_start ≤ x.length
        ∧ (recs.foldl (process_record hash getStr setStr) st).1
            = reset_content_hash hash x := by
  intro recs
  induction recs with
  | nil => intro st h _; exact absurd rfl h
  | cons r rest ih =>
    intro st _ hbuf
    rw [List.foldl_cons]
    by_cases hrest : rest = []
    · subst hrest
      rw [List.foldl_nil]
      refine ⟨(mutate_record getStr setStr st r).1, ?_, rfl⟩
      rw [mutate_record_length getStr setStr st r hSet]
      exact hbuf
    · exact ih (process_record hash getStr setStr st r) hrest
        (by rw [process_record_length hash getStr setStr st r hLen hSet hbuf]; exact hbuf)

/-- Every iteration of the record loop appends exactly one resetHash event:
the loop resets the digest once per record visited. -/
theorem foldl_process_count (hash : List Nat → List Nat)
    (getStr : List Nat → Nat → List Char)
    (setStr : List Nat → Nat → List Char → List Nat) :
    ∀ (recs : List Nat) (st : List Nat × List MutEvent),
      ((recs.foldl (process_record hash getStr setStr) st).2).count MutEvent.resetHash
        = st.2.count MutEvent.resetHash + recs.length := by
  intro recs
  induction recs with
  | nil => intro st; rw [List.foldl_nil, List.length_nil, Nat.add_zero]
  | cons r rest ih =>
    intro st
    rw [List.foldl_cons, ih]
    unfold process_record
    simp only [List.count_append, mutate_record_count, List.length_cons]
    simp [Nat.add_comm, Nat.add_assoc, Nat.add_left_comm]

/-- Claim C1: for a container that passed validation and holds a partition
named name.source-file with cardinality at least one, process_ifc
re-establishes the invariant digest = hash(body): the stored digest bytes
equal the hash of the final body, validation succeeds on the result, and
reset_content_hash was invoked once per record visited (the last reset
therefore lands after the last mutation). -/
theorem claim_c1_digest_reestablished (hash : List Nat → List Nat)
    (getName : List Nat → Nat → List Char) (readArray : Nat → Nat → List Nat)
    (getStr : List Nat → Nat → List Char)
    (setStr : List Nat → Nat → List Char → List Nat)
    (buf : List Nat) (tbl : List PartitionEntry) (entry : PartitionEntry)
    (hLen : ∀ b, (hash b).length = sizeof_SHA256Hash)
    (hSet : ∀ b ref v, (setStr b ref v).length = b.length)
    (hbuf : contents_start ≤ buf.length)
    (_hval : validate_content_integrity hash buf = true)
    (hfind : tbl.find? (fun e => getName buf e.name == sourceFilePartitionName)
      = some entry)
    (hread : (readArray entry.offset entry.cardinality).length = entry.cardinality)
    (hcard : 1 ≤ entry.cardinality) :
    validate_content_integrity hash
      (process_ifc hash getName readArray getStr setStr buf tbl).1 = true
    ∧ ((process_ifc hash getName readArray getStr setStr buf tbl).1.drop
          hash_start).take sizeof_SHA256Hash
        = generate_content_hash hash
            (process_ifc hash getName readArray getStr setStr buf tbl).1
    ∧ ((process_ifc hash getName readArray getStr setStr buf tbl).2).count
        MutEvent.resetHash = entry.cardinality := by
  have hres : process_ifc hash getName readArray getStr setStr buf tbl
      = (readArray entry.offset entry.cardinality).foldl
          (process_record hash getStr setStr) (buf, []) := by
    unfold process_ifc
    rw [hfind]
  have hne : readArray entry.offset entry.cardinality ≠ [] := by
    intro h
    rw [h] at hread
    simp only [List.length_nil] at hread
    omega
  obtain ⟨x, hx, hxeq⟩ := foldl_process_reset hash getStr setStr hLen hSet
    (readArray entry.offset entry.cardinality) (buf, []) hne hbuf
  have hv : validate_content_integrity hash
      (process_ifc hash getName readArray getStr setStr buf tbl).1 = true := by
    rw [hres, hxeq]
    exact validate_after_reset hash x hLen hx
  refine ⟨hv, ?_, ?_⟩
  · have hd := hv
    simp only [validate_content_integrity, beq_iff_eq] at hd
    exact hd.symm
  · rw [hres, foldl_process_count hash getStr setStr]
    simp only [List.count_nil, Nat.zero_add]
    exact hread

/-- Claim C5: a container that passes validation but whose partition table
has no entry named name.source-file processes successfully with zero
mutations — the buffer is returned untouched and no set_string or
reset_content_hash event occurs. -/
theorem claim_c5_missing_partition_tolerated (hash : List Nat → List Nat)
    (getName : List Nat → Nat → List Char) (readArray : Nat → Nat → List Nat)
    (getStr : List Nat → Nat → List Char)
    (setStr : List Nat → Nat → List Char → List Nat)
    (buf : List Nat) (tbl : List PartitionEntry)
    (habsent : ∀ e ∈ tbl, ¬ getName buf e.name = sourceFilePartitionName) :
    process_ifc hash getName readArray getStr setStr buf tbl = (buf, []) := by
  unfold process_ifc
  have hnone : tbl.find?
      (fun e => getName buf e.name == sourceFilePartitionName) = none := by
    rw [List.find?_eq_none]
    intro e he
    simpa using habsent e he
  rw [hnone]

/-- A buffer whose stored digest already matches its body under demoHash:
4 signature bytes, 32 digest bytes of value 4, 4 body bytes. -/
def demoBuf : List Nat :=
  List.replicate 4 0 ++ List.replicate 32 4 ++ List.replicate 4 0

/-- String-table name resolver that always yields the source-file partition
name, for concrete witnesses. -/
def demoGetName : List Nat → Nat → List Char :=
  fun _ _ => sourceFilePartitionName

/-- String-table name resolver that never yields the source-file partition
name, for concrete witnesses. -/
def demoGetNameNone : List Nat → Nat → List Char :=
  fun _ _ => []

/-- Record-array reader producing a single record with a null name, for
concrete witnesses. -/
def demoReadArray : Nat → Nat → List Nat :=
  fun _ _ => [0]

/-- String resolver yielding an empty path, for concrete witnesses. -/
def demoGetStr : List Nat → Nat → List Char :=
  fun _ _ => []

/-- In-place string write that leaves the buffer unchanged, for concrete
witnesses. -/
def demoSetStr : List Nat → Nat → List Char → List Nat :=
  fun b _ _ => b

/-- A one-entry partition table, for concrete witnesses. -/
def demoTbl : List PartitionEntry := [⟨0, 0, 1⟩]

/-- Witness for claim C1 at concrete container-library instantiations. -/
theorem claim_c1_digest_reestablished_witness :
    (∀ b : List Nat, (demoHash b).length = sizeof_SHA256Hash)
    ∧ (∀ (b : List Nat) (ref : Nat) (v : List Char),
        (demoSetStr b ref v).length = b.length)
    ∧ contents_start ≤ demoBuf.length
    ∧ validate_content_integrity demoHash demoBuf = true
    ∧ demoTbl.find?
        (fun e => demoGetName demoBuf e.name == sourceFilePartitionName)
        = some ⟨0, 0, 1⟩
    ∧ (demoReadArray (⟨0, 0, 1⟩ : PartitionEntry).offset
        (⟨0, 0, 1⟩ : PartitionEntry).cardinality).length
        = (⟨0, 0, 1⟩ : PartitionEntry).cardinality
    ∧ 1 ≤ (⟨0, 0, 1⟩ : PartitionEntry).cardinality
    ∧ (validate_content_integrity demoHash
        (process_ifc demoHash demoGetName demoReadArray demoGetStr demoSetStr
          demoBuf demoTbl).1 = true
      ∧ ((process_ifc demoHash demoGetName demoReadArray demoGetStr demoSetStr
            demoBuf demoTbl).1.drop hash_start).take sizeof_SHA256Hash
          = generate_content_hash demoHash
              (process_ifc demoHash demoGetName demoReadArray demoGetStr
                demoSetStr demoBuf demoTbl).1
      ∧ ((process_ifc demoHash demoGetName demoReadArray demoGetStr demoSetStr
            demoBuf demoTbl).2).count MutEvent.resetHash
          = (⟨0, 0, 1⟩ : PartitionEntry).cardinality) :=
  ⟨demoHash_length, fun _ _ _ => rfl, by decide, by decide, by decide, by decide,
    by decide,
    claim_c1_digest_reestablished demoHash demoGetName demoReadArray demoGetStr
      demoSetStr demoBuf demoTbl ⟨0, 0, 1⟩ demoHash_length (fun _ _ _ => rfl)
      (by decide) (by decide) (by decide) (by decide) (by decide)⟩

/-- Witness for claim C5 at concrete container-library instantiations. -/
theorem claim_c5_missing_partition_tolerated_witness :
    (∀ e ∈ demoTbl, ¬ demoGetNameNone demoBuf e.name = sourceFilePartitionName)
    ∧ process_ifc demoHash demoGetNameNone demoReadArray demoGetStr demoSetStr
        demoBuf demoTbl = (demoBuf, []) :=
  ⟨by decide,
    claim_c5_missing_partition_tolerated demoHash demoGetNameNone demoReadArray
      demoGetStr demoSetStr demoBuf demoTbl (by decide)⟩

/-- Outcome of process_args in main.cxx lines 50-81: print help and exit 0,
reject an unknown flag and exit 1, reject an empty file list and exit 1, or
return the collected file arguments. -/
inductive ArgsResult
  | showHelp
  | unknownArg (a : String)
  | noFiles
  | files (fs : List String)
deriving DecidableEq

/-- The first character argv[i][0] of a C string: the NUL terminator when
the argument is empty. -/
def argHead (a : String) : Char :=
  a.toList.headD (Char.ofNat 0)

/-- The argument loop of process_args (main.cxx lines 53-78) with the files
accumulated so far: --help or -h exits via help; an argument not starting with
a dash is collected as a file; any other dash argument is rejected as
unknown; after the loop an empty file list is rejected. -/
def process_args_loop : List String → List String → ArgsResult
  | [], acc => if acc = [] then ArgsResult.noFiles else ArgsResult.files acc.reverse
  | a :: rest, acc =>
    if a = "--help" ∨ a = "-h" then ArgsResult.showHelp
    else if argHead a ≠ '-' then process_args_loop rest (a :: acc)
    else ArgsResult.unknownArg a

/-- main.cxx process_args over argv[1..]. -/
def process_args (args : List String) : ArgsResult :=
  process_args_loop args []

/-- The exit code each process_args outcome produces in main.cxx: exit(0)
after help, exit(1) for an unknown argument or no files, none when
processing continues. -/
def args_exit_code : ArgsResult → Option Nat
  | ArgsResult.showHelp => some 0
  | ArgsResult.unknownArg _ => some 1
  | ArgsResult.noFiles => some 1
  | ArgsResult.files _ => none

/-- The usage text printed by print_help in main.cxx lines 42-48, given the
stem of argv[0]. -/
def print_help_text (name : String) : String :=
  "Usage:\n\n" ++ name ++ " ifc-file1 [ifc-file2 ...] [--color/-c]\n"
    ++ name ++ " --help/-h\n"

/-- Any dash argument other than --help or -h that the loop reaches (all
arguments before it were plain file names) is rejected as unknown. -/
theorem process_args_loop_unknown (a : String) (post : List String)
    (ha : argHead a = '-') (h1 : a ≠ "--help") (h2 : a ≠ "-h") :
    ∀ (pre : List String) (acc : List String), (∀ p ∈ pre, argHead p ≠ '-') →
      process_args_loop (pre ++ a :: post) acc = ArgsResult.unknownArg a := by
  intro pre
  induction pre with
  | nil =>
    intro acc _
    show process_args_loop (a :: post) acc = ArgsResult.unknownArg a
    unfold process_args_loop
    rw [if_neg (by rintro (h | h); exacts [h1 h, h2 h]), if_neg (fun hn => hn ha)]
  | cons p rest ih =>
    intro acc hpre
    have hp : argHead p ≠ '-' := hpre p (List.mem_cons_self p rest)
    have hnothelp : ¬ (p = "--help" ∨ p = "-h") := by
      rintro (rfl | rfl)
      · exact hp (by decide)
      · exact hp (by decide)
    rw [List.cons_append]
    unfold process_args_loop
    rw [if_neg hnothelp, if_pos hp]
    exact ih (p :: acc) (fun q hq => hpre q (List.mem_cons_of_mem p hq))

/-- Claim C10: --color and -c are rejected with the unknown-argument
diagnostic and exit code 1 — as is every dash argument other than
--help or -h that the loop reaches — even though the usage text printed
by print_help advertises the color flag as accepted. -/
theorem claim_c10_color_flag_rejected (pre : List String) (a : String)
    (post : List String) (name : String)
    (hpre : ∀ p ∈ pre, argHead p ≠ '-')
    (ha : argHead a = '-') (h1 : a ≠ "--help") (h2 : a ≠ "-h") :
    process_args (pre ++ a :: post) = ArgsResult.unknownArg a
    ∧ args_exit_code (process_args (pre ++ a :: post)) = some 1
    ∧ process_args ["--color"] = ArgsResult.unknownArg "--color"
    ∧ args_exit_code (process_args ["--color"]) = some 1
    ∧ process_args ["-c"] = ArgsResult.unknownArg "-c"
    ∧ args_exit_code (process_args ["-c"]) = some 1
    ∧ ("[--color/-c]".toList) <:+: (print_help_text name).toList := by
  have hmain : process_args (pre ++ a :: post) = ArgsResult.unknownArg a :=
    process_args_loop_unknown a post ha h1 h2 pre [] hpre
  refine ⟨hmain, by rw [hmain]; rfl, by decide, by decide, by decide, by decide, ?_⟩
  refine ⟨"Usage:\n\n".toList ++ name.toList ++ " ifc-file1 [ifc-file2 ...] ".toList,
    "\n".toList ++ name.toList ++ " --help/-h\n".toList, ?_⟩
  simp only [print_help_text, String.toList, String.data_append,
    List.append_assoc, List.cons_append, List.nil_append]

/-- Witness for claim C10 at the concrete argument --color. -/
theorem claim_c10_color_flag_rejected_witness :
    (∀ p ∈ ([] : List String), argHead p ≠ '-')
    ∧ argHead "--color" = '-'
    ∧ "--color" ≠ "--help"
    ∧ "--color" ≠ "-h"
    ∧ (process_args ([] ++ "--color" :: []) = ArgsResult.unknownArg "--color"
      ∧ args_exit_code (process_args ([] ++ "--color" :: [])) = some 1
      ∧ process_args ["--color"] = ArgsResult.unknownArg "--color"
      ∧ args_exit_code (process_args ["--color"]) = some 1
      ∧ process_args ["-c"] = ArgsResult.unknownArg "-c"
      ∧ args_exit_code (process_args ["-c"]) = some 1
      ∧ ("[--color/-c]".toList) <:+: (print_help_text "ifc4enlistment").toList) :=
  ⟨by simp, by decide, by decide, by decide,
    claim_c10_color_flag_rejected [] "--color" [] "ifc4enlistment"
      (by simp) (by decide) (by decide) (by decide)⟩

/-- The closed set of failures that can cross process_ifc, as the
specification taxonomy lists them; the library headers declaring the C++
exception types are outside the two source files, so the taxonomy is
modelled from the spec.  The IfcArchMismatch, IntegrityCheckFailed,
MalformedContainer and UnresolvedReference types of the library are
unrelated by inheritance, and a thrown const char* or any other exception
reaches the same top-level handler. -/
inductive CaughtException
  | ifcArchMismatch
  | integrityCheckFailed
  | malformedContainer
  | unresolvedReference
  | charPtrMessage (m : String)
  | otherException
deriving DecidableEq

/-- main.cxx translate_exception (lines 15-33): only IfcArchMismatch and a
thrown const char* have dedicated handlers; everything else falls into the
catch-all clause. -/
def translate_exception : CaughtException → String
  | CaughtException.ifcArchMismatch => "ifc architecture mismatch\n"
  | CaughtException.charPtrMessage m => "caught: " ++ m
  | _ => "unknown exception caught\n"

/-- main.cxx main (lines 197-213): process the files in order; the first
exception is translated to a diagnostic and the run ends with EXIT_FAILURE
(1); with no exception the run ends with EXIT_SUCCESS (0).  Each file's
processing outcome is given as an Except value. -/
def run_files : List (Except CaughtException Unit) → Nat × Option String
  | [] => (0, none)
  | Except.ok _ :: rest => run_files rest
  | Except.error e :: _ => (1, some (translate_exception e))

/-- Files that processed without an exception do not affect the run's
outcome. -/
theorem run_files_skip_ok :
    ∀ (pre : List (Except CaughtException Unit)),
      (∀ x ∈ pre, x = Except.ok ()) →
      ∀ rest, run_files (pre ++ rest) = run_files rest := by
  intro pre
  induction pre with
  | nil => intro _ rest; rfl
  | cons x xs ih =>
    intro h rest
    have hx := h x (List.mem_cons_self x xs)
    rw [List.cons_append, hx]
    show run_files (xs ++ rest) = run_files rest
    exact ih (fun y hy => h y (List.mem_cons_of_mem x hy)) rest

/-- Counterexample to claim C7 as stated: an IntegrityCheckFailed raised
while processing a file does exit with code 1, but its diagnostic is the
generic catch-all text, identical to the message for MalformedContainer,
UnresolvedReference and for a completely unknown exception — so the
message does not identify the failure kind. -/
theorem claim_c7_counterexample :
    (run_files [Except.error CaughtException.integrityCheckFailed]).1 = 1
    ∧ (run_files [Except.error CaughtException.integrityCheckFailed]).2
        = some "unknown exception caught\n"
    ∧ translate_exception CaughtException.integrityCheckFailed
        = translate_exception CaughtException.otherException
    ∧ translate_exception CaughtException.malformedContainer
        = translate_exception CaughtException.otherException
    ∧ translate_exception CaughtException.unresolvedReference
        = translate_exception CaughtException.otherException :=
  ⟨rfl, rfl, rfl, rfl, rfl⟩

/-- Claim C7 (amended): every failure raised while processing any file
makes the program exit with code 1 and print the translated diagnostic,
but only IfcArchMismatch (and a thrown const char*) get a message naming
the failure kind; IntegrityCheckFailed, MalformedContainer and
UnresolvedReference all surface as the generic catch-all text. -/
theorem claim_c7_amended_failure_exit (pre : List (Except CaughtException Unit))
    (e : CaughtException) (post : List (Except CaughtException Unit))
    (hpre : ∀ x ∈ pre, x = Except.ok ()) :
    (run_files (pre ++ Except.error e :: post)).1 = 1
    ∧ (run_files (pre ++ Except.error e :: post)).2
        = some (translate_exception e)
    ∧ translate_exception CaughtException.ifcArchMismatch
        = "ifc architecture mismatch\n"
    ∧ translate_exception CaughtException.integrityCheckFailed
        = "unknown exception caught\n"
    ∧ translate_exception CaughtException.malformedContainer
        = "unknown exception caught\n"
    ∧ translate_exception CaughtException.unresolvedReference
        = "unknown exception caught\n" := by
  rw [run_files_skip_ok pre hpre]
  exact ⟨rfl, rfl, rfl, rfl, rfl, rfl⟩

/-- Witness for the amended claim C7 at a concrete run: one successful
file, then an IntegrityCheckFailed. -/
theorem claim_c7_amended_failure_exit_witness :
    (∀ x ∈ [Except.ok ()], x = (Except.ok () : Except CaughtException Unit))
    ∧ ((run_files ([Except.ok ()]
          ++ Except.error CaughtException.integrityCheckFailed :: [])).1 = 1
      ∧ (run_files ([Except.ok ()]
            ++ Except.error CaughtException.integrityCheckFailed :: [])).2
          = some (translate_exception CaughtException.integrityCheckFailed)
      ∧ translate_exception CaughtException.ifcArchMismatch
          = "ifc architecture mismatch\n"
      ∧ translate_exception CaughtException.integrityCheckFailed
          = "unknown exception caught\n"
      ∧ translate_exception CaughtException.malformedContainer
          = "unknown exception caught\n"
      ∧ translate_exception CaughtException.unresolvedReference
          = "unknown exception caught\n") :=
  ⟨fun _ hx => List.mem_singleton.mp hx,
    claim_c7_amended_failure_exit [Except.ok ()]
      CaughtException.integrityCheckFailed []
      (fun _ hx => List.mem_singleton.mp hx)⟩

end Ifc
